import Mathlib

/-!
Verification of the marsbot duplicate-image bookkeeping core.

The development shallowly embeds the program's state and operations:

* `MarsInfo`, `GroupStat`, `Store` model the sqlite tables `mars_info` and
  `mars_group_stat` (schema_mars.sql); a table is a list of rows, updated in
  place and extended at the end, with at most one row per primary key.
* `getMarsInfo`, `incrementMarsInfo`, `setMarsWhitelist`, `incrementGroupStat`
  model the statements of query_mars.sql with those names.
* `recordMars` models the transaction `(App).recordMars` of main.go.
* `hammingDistance` models the Go fallback `hammingDistance` of main.go, and
  `listSimilarPhotos` the `ListSimilarPhotos` query.
* `mini_pack_dhash_bits` and `mini_resize_area_fast_int` model the C functions
  of minicv/mini_cv.c with those names.

Machine integers (Go int64, sqlite INTEGER) are modelled as `Int`; none of the
verified paths can overflow 64 bits for the inputs considered.  Bytes are `Nat`
values (< 256 in all concrete instances).
-/

namespace Marsbot

/-- A row of the `mars_info` table: key `(group_id, pic_dhash)`, plus
`count`, `last_msg_id` and `in_whitelist`. -/
structure MarsInfo where
  groupID : Int
  picDhash : List Nat
  count : Int
  lastMsgID : Int
  inWhitelist : Int
  deriving DecidableEq, Repr

/-- A row of the `mars_group_stat` table: key `group_id`, value `image_count`. -/
structure GroupStat where
  groupID : Int
  imageCount : Int
  deriving DecidableEq, Repr

/-- The persistent store: the two tables the dedup coordinator touches. -/
structure Store where
  marsInfo : List MarsInfo
  groupStat : List GroupStat
  deriving DecidableEq, Repr

/-- Primary-key test for `mars_info` rows. -/
def isKey (g : Int) (d : List Nat) (r : MarsInfo) : Bool :=
  decide (r.groupID = g ∧ r.picDhash = d)

/-- Primary-key test for `mars_group_stat` rows. -/
def isStatKey (g : Int) (r : GroupStat) : Bool :=
  decide (r.groupID = g)

/-- `GetMarsInfo`: SELECT * FROM mars_info WHERE group_id = ? AND pic_dhash = ?. -/
def getMarsInfo (s : Store) (g : Int) (d : List Nat) : Option MarsInfo :=
  s.marsInfo.find? (isKey g d)

/-- The row update performed by `IncrementMarsInfo`'s ON CONFLICT clause:
`count = count + 1, last_msg_id = excluded.last_msg_id`. -/
def incRow (m : Int) (r : MarsInfo) : MarsInfo :=
  { r with count := r.count + 1, lastMsgID := m }

/-- `IncrementMarsInfo`: INSERT (g, d, 1, m, 0) ON CONFLICT DO UPDATE SET
`count = count + 1, last_msg_id = excluded.last_msg_id` RETURNING the row. -/
def incrementMarsInfo (s : Store) (g : Int) (d : List Nat) (m : Int) :
    MarsInfo × Store :=
  match getMarsInfo s g d with
  | some info =>
      (incRow m info,
        { s with marsInfo := s.marsInfo.map fun r => if isKey g d r then incRow m r else r })
  | none =>
      (⟨g, d, 1, m, 0⟩, { s with marsInfo := s.marsInfo ++ [⟨g, d, 1, m, 0⟩] })

/-- The row update performed by `SetMarsWhitelist`'s ON CONFLICT clause. -/
def setWlRow (f : Int) (r : MarsInfo) : MarsInfo :=
  { r with inWhitelist := f }

/-- `SetMarsWhitelist`: INSERT (g, d, 0, 0, f) ON CONFLICT DO UPDATE SET
`in_whitelist = excluded.in_whitelist`. -/
def setMarsWhitelist (s : Store) (g : Int) (d : List Nat) (f : Int) : Store :=
  match getMarsInfo s g d with
  | some _ =>
      { s with marsInfo := s.marsInfo.map fun r => if isKey g d r then setWlRow f r else r }
  | none =>
      { s with marsInfo := s.marsInfo ++ [⟨g, d, 0, 0, f⟩] }

/-- `IncrementGroupStat`: INSERT (g, 1) ON CONFLICT DO UPDATE SET
`image_count = image_count + 1`. -/
def incrementGroupStat (s : Store) (g : Int) : Store :=
  match s.groupStat.find? (isStatKey g) with
  | some _ =>
      { s with groupStat := s.groupStat.map fun r =>
          if isStatKey g r then { r with imageCount := r.imageCount + 1 } else r }
  | none =>
      { s with groupStat := s.groupStat ++ [⟨g, 1⟩] }

/-- The `image_count` stored for a group (0 when the row is absent). -/
def groupStatCount (s : Store) (g : Int) : Int :=
  match s.groupStat.find? (isStatKey g) with
  | some r => r.imageCount
  | none => 0

/-- The result struct `marsResult` of main.go. -/
structure marsResult where
  PrevCount : Int
  PrevLastMsgID : Int
  Info : MarsInfo
  Skipped : Bool
  deriving DecidableEq, Repr

/-- `(App).recordMars` of main.go: one sighting transaction.  Looks the record
up; skips on message-id replay or whitelist; otherwise increments the record
and, when the previous count was zero, the group stat. -/
def recordMars (s : Store) (g m : Int) (d : List Nat) : Store × marsResult :=
  match getMarsInfo s g d with
  | some info =>
      if info.lastMsgID = m ∨ info.inWhitelist ≠ 0 then
        (s, ⟨info.count, info.lastMsgID, info, true⟩)
      else
        let n := incrementMarsInfo s g d m
        let s2 := if info.count = 0 then incrementGroupStat n.2 g else n.2
        (s2, ⟨info.count, info.lastMsgID, n.1, false⟩)
  | none =>
      let n := incrementMarsInfo s g d m
      (incrementGroupStat n.2 g, ⟨0, 0, n.1, false⟩)

/-! ### Association-list toolkit -/

/-- `find?` commutes with a predicate-preserving map. -/
theorem find?_map_pres {α : Type} (p : α → Bool) (f : α → α)
    (h : ∀ a, p (f a) = p a) :
    ∀ l : List α, (l.map f).find? p = (l.find? p).map f := by
  intro l
  induction l with
  | nil => rfl
  | cons a t ih =>
      by_cases hpa : p a = true
      · simp [List.find?, h, hpa]
      · simp only [Bool.not_eq_true] at hpa
        simp [List.find?, h, hpa, ih]

/-- Filtering by a predicate preserved by `f` gives lists of equal length. -/
theorem length_filter_map_pres {α : Type} (p : α → Bool) (f : α → α)
    (h : ∀ a, p (f a) = p a) :
    ∀ l : List α, ((l.map f).filter p).length = (l.filter p).length := by
  intro l
  induction l with
  | nil => rfl
  | cons a t ih =>
      by_cases hpa : p a = true
      · simp [List.filter, h, hpa, ih]
      · simp only [Bool.not_eq_true] at hpa
        simp [List.filter, h, hpa, ih]

theorem isKey_incRow (g : Int) (d : List Nat) (m : Int) (r : MarsInfo) :
    isKey g d (incRow m r) = isKey g d r := rfl

theorem isKey_setWlRow (g : Int) (d : List Nat) (f : Int) (r : MarsInfo) :
    isKey g d (setWlRow f r) = isKey g d r := rfl

theorem isKey_condUpd (g g' : Int) (d d' : List Nat) (f : MarsInfo → MarsInfo)
    (hf : ∀ r, isKey g d (f r) = isKey g d r) (r : MarsInfo) :
    isKey g d (if isKey g' d' r then f r else r) = isKey g d r := by
  by_cases h : isKey g' d' r = true <;> simp [h, hf]

/-- The conditional update of `incrementMarsInfo` maps the stored row of key
`(g, d)` to its incremented version and fixes every other row. -/
theorem getMarsInfo_inc_self (s : Store) (g : Int) (d : List Nat) (m : Int) :
    getMarsInfo (incrementMarsInfo s g d m).2 g d = some (incrementMarsInfo s g d m).1 := by
  cases hfind : getMarsInfo s g d with
  | some info =>
      have hfind' : s.marsInfo.find? (isKey g d) = some info := hfind
      have hk : isKey g d info = true := List.find?_some hfind'
      simp only [incrementMarsInfo, getMarsInfo, hfind']
      rw [find?_map_pres (isKey g d) _ (isKey_condUpd g g d d _ (isKey_incRow g d m)), hfind']
      simp [hk]
  | none =>
      have hfind' : s.marsInfo.find? (isKey g d) = none := hfind
      simp only [incrementMarsInfo, getMarsInfo, hfind']
      rw [List.find?_append, hfind']
      simp [List.find?, isKey]

theorem getMarsInfo_inc_other (s : Store) (g g' : Int) (d d' : List Nat) (m : Int)
    (hne : ¬(g' = g ∧ d' = d)) :
    getMarsInfo (incrementMarsInfo s g d m).2 g' d' = getMarsInfo s g' d' := by
  cases hfind : getMarsInfo s g d with
  | some info =>
      have hfind' : s.marsInfo.find? (isKey g d) = some info := hfind
      simp only [incrementMarsInfo, getMarsInfo, hfind']
      rw [find?_map_pres (isKey g' d') _ (isKey_condUpd g' g d' d _ (isKey_incRow g' d' m))]
      cases hq : s.marsInfo.find? (isKey g' d') with
      | none => simp
      | some r =>
          have hk : isKey g' d' r = true := List.find?_some hq
          have hk' : isKey g d r = false := by
            simp only [isKey, decide_eq_true_eq] at hk
            simp only [isKey, decide_eq_false_iff_not]
            rintro ⟨h1, h2⟩
            exact hne ⟨by rw [← hk.1, h1], by rw [← hk.2, h2]⟩
          simp [hk']
  | none =>
      have hfind' : s.marsInfo.find? (isKey g d) = none := hfind
      simp only [incrementMarsInfo, getMarsInfo, hfind']
      rw [List.find?_append]
      have : isKey g' d' (⟨g, d, 1, m, 0⟩ : MarsInfo) = false := by
        simp only [isKey, decide_eq_false_iff_not]
        exact fun h => hne ⟨h.1.symm, h.2.symm⟩
      simp [List.find?, this]

theorem getMarsInfo_set_self (s : Store) (g : Int) (d : List Nat) (f : Int) :
    getMarsInfo (setMarsWhitelist s g d f) g d =
      some (match getMarsInfo s g d with
            | some info => setWlRow f info
            | none => ⟨g, d, 0, 0, f⟩) := by
  cases hfind : getMarsInfo s g d with
  | some info =>
      have hfind' : s.marsInfo.find? (isKey g d) = some info := hfind
      have hk : isKey g d info = true := List.find?_some hfind'
      simp only [setMarsWhitelist, getMarsInfo, hfind']
      rw [find?_map_pres (isKey g d) _ (isKey_condUpd g g d d _ (isKey_setWlRow g d f)), hfind']
      simp [hk]
  | none =>
      have hfind' : s.marsInfo.find? (isKey g d) = none := hfind
      simp only [setMarsWhitelist, getMarsInfo, hfind']
      rw [List.find?_append, hfind']
      simp [List.find?, isKey]

theorem getMarsInfo_set_other (s : Store) (g g' : Int) (d d' : List Nat) (f : Int)
    (hne : ¬(g' = g ∧ d' = d)) :
    getMarsInfo (setMarsWhitelist s g d f) g' d' = getMarsInfo s g' d' := by
  cases hfind : getMarsInfo s g d with
  | some info =>
      have hfind' : s.marsInfo.find? (isKey g d) = some info := hfind
      simp only [setMarsWhitelist, getMarsInfo, hfind']
      rw [find?_map_pres (isKey g' d') _ (isKey_condUpd g' g d' d _ (isKey_setWlRow g' d' f))]
      cases hq : s.marsInfo.find? (isKey g' d') with
      | none => simp
      | some r =>
          have hk : isKey g' d' r = true := List.find?_some hq
          have hk' : isKey g d r = false := by
            simp only [isKey, decide_eq_true_eq] at hk
            simp only [isKey, decide_eq_false_iff_not]
            rintro ⟨h1, h2⟩
            exact hne ⟨by rw [← hk.1, h1], by rw [← hk.2, h2]⟩
          simp [hk']
  | none =>
      have hfind' : s.marsInfo.find? (isKey g d) = none := hfind
      simp only [setMarsWhitelist, getMarsInfo, hfind']
      rw [List.find?_append]
      have : isKey g' d' (⟨g, d, 0, 0, f⟩ : MarsInfo) = false := by
        simp only [isKey, decide_eq_false_iff_not]
        exact fun h => hne ⟨h.1.symm, h.2.symm⟩
      simp [List.find?, this]

/-- `incrementMarsInfo` does not touch the group statistics table. -/
theorem groupStat_inc (s : Store) (g : Int) (d : List Nat) (m : Int) :
    (incrementMarsInfo s g d m).2.groupStat = s.groupStat := by
  cases hfind : getMarsInfo s g d <;> simp [incrementMarsInfo, hfind]

/-- `setMarsWhitelist` does not touch the group statistics table. -/
theorem groupStat_set (s : Store) (g : Int) (d : List Nat) (f : Int) :
    (setMarsWhitelist s g d f).groupStat = s.groupStat := by
  cases hfind : getMarsInfo s g d <;> simp [setMarsWhitelist, hfind]

/-- `incrementGroupStat` does not touch the `mars_info` table. -/
theorem marsInfo_incStat (s : Store) (g : Int) :
    (incrementGroupStat s g).marsInfo = s.marsInfo := by
  cases hfind : s.groupStat.find? (isStatKey g) <;> simp [incrementGroupStat, hfind]

theorem isStatKey_condUpd (g g' : Int) (f : GroupStat → GroupStat)
    (hf : ∀ r, isStatKey g (f r) = isStatKey g r) (r : GroupStat) :
    isStatKey g (if isStatKey g' r then f r else r) = isStatKey g r := by
  by_cases h : isStatKey g' r = true <;> simp [h, hf]

/-- `incrementGroupStat` adds one to the stat of the target group. -/
theorem groupStatCount_incStat_self (s : Store) (g : Int) :
    groupStatCount (incrementGroupStat s g) g = groupStatCount s g + 1 := by
  cases hfind : s.groupStat.find? (isStatKey g) with
  | some r =>
      have hk : isStatKey g r = true := List.find?_some hfind
      simp only [incrementGroupStat, hfind, groupStatCount]
      rw [find?_map_pres (isStatKey g) _ (isStatKey_condUpd g g (fun r => { r with imageCount := r.imageCount + 1 }) (fun _ => rfl)), hfind]
      simp [hk]
  | none =>
      simp only [incrementGroupStat, hfind, groupStatCount]
      rw [List.find?_append, hfind]
      simp [List.find?, isStatKey]

/-- `incrementGroupStat` leaves every other group's stat unchanged. -/
theorem groupStatCount_incStat_other (s : Store) (g g' : Int) (hne : g' ≠ g) :
    groupStatCount (incrementGroupStat s g) g' = groupStatCount s g' := by
  cases hfind : s.groupStat.find? (isStatKey g) with
  | some r =>
      simp only [incrementGroupStat, hfind, groupStatCount]
      rw [find?_map_pres (isStatKey g') _ (isStatKey_condUpd g' g (fun r => { r with imageCount := r.imageCount + 1 }) (fun _ => rfl))]
      cases hq : s.groupStat.find? (isStatKey g') with
      | none => simp
      | some r' =>
          have hk : isStatKey g' r' = true := List.find?_some hq
          have hk' : isStatKey g r' = false := by
            simp only [isStatKey, decide_eq_true_eq] at hk
            simp only [isStatKey, decide_eq_false_iff_not]
            rw [hk]
            exact hne
          simp [hk']
  | none =>
      simp only [incrementGroupStat, hfind, groupStatCount]
      rw [List.find?_append]
      have : isStatKey g' (⟨g, 1⟩ : GroupStat) = false := by
        simp only [isStatKey, decide_eq_false_iff_not]
        exact fun h => hne h.symm
      simp [List.find?, this]

/-- `incrementGroupStat` does not affect `mars_info` lookups. -/
theorem getMarsInfo_incStat (s : Store) (gS g : Int) (d : List Nat) :
    getMarsInfo (incrementGroupStat s gS) g d = getMarsInfo s g d := by
  unfold getMarsInfo
  rw [marsInfo_incStat]

/-- `incrementMarsInfo` does not affect group statistics. -/
theorem groupStatCount_incMars (s : Store) (g : Int) (d : List Nat) (m g' : Int) :
    groupStatCount (incrementMarsInfo s g d m).2 g' = groupStatCount s g' := by
  unfold groupStatCount
  rw [groupStat_inc]

/-- `setMarsWhitelist` does not affect group statistics counts. -/
theorem groupStatCount_set (s : Store) (g : Int) (d : List Nat) (f g' : Int) :
    groupStatCount (setMarsWhitelist s g d f) g' = groupStatCount s g' := by
  unfold groupStatCount
  rw [groupStat_set]

/-! ### Case lemmas for `recordMars` -/

/-- The skip path: a present record with matching message id or whitelist flag
short-circuits the transaction, leaving the store untouched. -/
theorem recordMars_skip (s : Store) (g m : Int) (d : List Nat) (info : MarsInfo)
    (hfind : getMarsInfo s g d = some info)
    (hskip : info.lastMsgID = m ∨ info.inWhitelist ≠ 0) :
    recordMars s g m d = (s, ⟨info.count, info.lastMsgID, info, true⟩) := by
  simp [recordMars, hfind, hskip]

/-- The first-sighting path: an absent record leads to an insert plus a group
stat increment. -/
theorem recordMars_absent (s : Store) (g m : Int) (d : List Nat)
    (habs : getMarsInfo s g d = none) :
    recordMars s g m d =
      (incrementGroupStat (incrementMarsInfo s g d m).2 g,
        ⟨0, 0, (incrementMarsInfo s g d m).1, false⟩) := by
  simp [recordMars, habs]

/-- The repeat path: a present record that is neither replay nor whitelisted is
incremented; the group stat moves only when the previous count was zero. -/
theorem recordMars_present (s : Store) (g m : Int) (d : List Nat) (info : MarsInfo)
    (hfind : getMarsInfo s g d = some info)
    (hskip : ¬(info.lastMsgID = m ∨ info.inWhitelist ≠ 0)) :
    recordMars s g m d =
      ((if info.count = 0 then incrementGroupStat (incrementMarsInfo s g d m).2 g
        else (incrementMarsInfo s g d m).2),
        ⟨info.count, info.lastMsgID, (incrementMarsInfo s g d m).1, false⟩) := by
  simp [recordMars, hfind, hskip]

/-- Sightings of a different key never touch this key's record. -/
theorem getMarsInfo_recordMars_other (s : Store) (g g' m : Int) (d d' : List Nat)
    (hne : ¬(g' = g ∧ d' = d)) :
    getMarsInfo (recordMars s g m d).1 g' d' = getMarsInfo s g' d' := by
  cases hfind : getMarsInfo s g d with
  | some info =>
      by_cases hskip : info.lastMsgID = m ∨ info.inWhitelist ≠ 0
      · rw [recordMars_skip s g m d info hfind hskip]
      · rw [recordMars_present s g m d info hfind hskip]
        by_cases hc : info.count = 0 <;>
          simp [hc, getMarsInfo_incStat, getMarsInfo_inc_other s g g' d d' m hne]
  | none =>
      rw [recordMars_absent s g m d hfind]
      simp [getMarsInfo_incStat, getMarsInfo_inc_other s g g' d d' m hne]

/-- After a non-skipped sighting, the stored record is the returned `Info`,
whose `last_msg_id` is the sighting's message id. -/
theorem getMarsInfo_recordMars_self (s : Store) (g m : Int) (d : List Nat)
    (h : (recordMars s g m d).2.Skipped = false) :
    getMarsInfo (recordMars s g m d).1 g d = some (recordMars s g m d).2.Info ∧
      (recordMars s g m d).2.Info.lastMsgID = m := by
  cases hfind : getMarsInfo s g d with
  | some info =>
      by_cases hskip : info.lastMsgID = m ∨ info.inWhitelist ≠ 0
      · rw [recordMars_skip s g m d info hfind hskip] at h
        simp at h
      · rw [recordMars_present s g m d info hfind hskip]
        have hinc := getMarsInfo_inc_self s g d m
        have hlast : (incrementMarsInfo s g d m).1.lastMsgID = m := by
          simp [incrementMarsInfo, hfind, incRow]
        by_cases hc : info.count = 0 <;> simp [hc, getMarsInfo_incStat, hinc, hlast]
  | none =>
      rw [recordMars_absent s g m d hfind]
      have hinc := getMarsInfo_inc_self s g d m
      have hlast : (incrementMarsInfo s g d m).1.lastMsgID = m := by
        simp [incrementMarsInfo, hfind]
      simp [getMarsInfo_incStat, hinc, hlast]

/-! ### C1: first sighting -/

/-- C1: when no record exists for `(group, fingerprint)`, `recordMars` creates
the record with `count = 1` and `last_msg_id = message_id`, returns a
non-skipped outcome with previous count 0 (FirstSeen), and increments the
group's `image_count` exactly once, leaving other groups' stats alone; no
other operation (whitelist upsert, skip path, repeat path) changes the group
stat table. -/
theorem c1_first_sighting (s : Store) (g m : Int) (d : List Nat)
    (habs : getMarsInfo s g d = none) :
    (recordMars s g m d).2.Skipped = false ∧
    (recordMars s g m d).2.PrevCount = 0 ∧
    getMarsInfo (recordMars s g m d).1 g d = some ⟨g, d, 1, m, 0⟩ ∧
    groupStatCount (recordMars s g m d).1 g = groupStatCount s g + 1 ∧
    (∀ g2, g2 ≠ g → groupStatCount (recordMars s g m d).1 g2 = groupStatCount s g2) ∧
    (∀ s2 g2 m2 d2 f2, (setMarsWhitelist s2 g2 d2 f2).groupStat = s2.groupStat ∧
      (∀ info2, getMarsInfo s2 g2 d2 = some info2 → info2.count ≠ 0 →
        ((recordMars s2 g2 m2 d2).1).groupStat = s2.groupStat)) := by
  have hrec := recordMars_absent s g m d habs
  have hrow : (incrementMarsInfo s g d m).1 = ⟨g, d, 1, m, 0⟩ := by
    simp [incrementMarsInfo, habs]
  refine ⟨by rw [hrec], by rw [hrec], ?_, ?_, ?_, ?_⟩
  · rw [hrec]
    simp only [getMarsInfo_incStat, getMarsInfo_inc_self, hrow]
  · rw [hrec]
    simp only [groupStatCount_incStat_self, groupStatCount_incMars]
  · intro g2 hne
    rw [hrec]
    simp only [groupStatCount_incStat_other _ _ _ hne, groupStatCount_incMars]
  · intro s2 g2 m2 d2 f2
    refine ⟨groupStat_set s2 g2 d2 f2, ?_⟩
    intro info2 hfind2 hc2
    by_cases hskip : info2.lastMsgID = m2 ∨ info2.inWhitelist ≠ 0
    · rw [recordMars_skip s2 g2 m2 d2 info2 hfind2 hskip]
    · rw [recordMars_present s2 g2 m2 d2 info2 hfind2 hskip]
      simp only [if_neg hc2]
      exact groupStat_inc s2 g2 d2 m2

/-- C1 witness: the first sighting of fingerprint `[0,...,0]` in group 1 on an
empty store. -/
theorem c1_first_sighting_w :
    (recordMars ⟨[], []⟩ 1 100 [0, 0, 0, 0, 0, 0, 0, 0]).2.Skipped = false ∧
    (recordMars ⟨[], []⟩ 1 100 [0, 0, 0, 0, 0, 0, 0, 0]).2.PrevCount = 0 ∧
    getMarsInfo (recordMars ⟨[], []⟩ 1 100 [0, 0, 0, 0, 0, 0, 0, 0]).1 1
        [0, 0, 0, 0, 0, 0, 0, 0] = some ⟨1, [0, 0, 0, 0, 0, 0, 0, 0], 1, 100, 0⟩ ∧
    groupStatCount (recordMars ⟨[], []⟩ 1 100 [0, 0, 0, 0, 0, 0, 0, 0]).1 1 =
      groupStatCount ⟨[], []⟩ 1 + 1 := by
  have h := c1_first_sighting ⟨[], []⟩ 1 100 [0, 0, 0, 0, 0, 0, 0, 0] (by decide)
  exact ⟨h.1, h.2.1, h.2.2.1, h.2.2.2.1⟩

/-! ### C2: replay of an already recorded triple -/

/-- C2 counterexample: a triple recorded earlier is NOT always skipped on
re-delivery.  Record `(1, d, 100)` (FirstSeen), then `(1, d, 101)` (Repeated,
the stored `last_msg_id` becomes 101); re-running the first triple
`(1, d, 100)` is processed again — not skipped — and inflates the count from
2 to 3. -/
theorem c2_replay_cex :
    (recordMars ⟨[], []⟩ 1 100 [0, 0, 0, 0, 0, 0, 0, 0]).2.Skipped = false ∧
    (recordMars (recordMars ⟨[], []⟩ 1 100 [0, 0, 0, 0, 0, 0, 0, 0]).1
        1 101 [0, 0, 0, 0, 0, 0, 0, 0]).2.Skipped = false ∧
    (recordMars (recordMars (recordMars ⟨[], []⟩ 1 100 [0, 0, 0, 0, 0, 0, 0, 0]).1
        1 101 [0, 0, 0, 0, 0, 0, 0, 0]).1 1 100 [0, 0, 0, 0, 0, 0, 0, 0]).2.Skipped = false ∧
    (getMarsInfo (recordMars (recordMars (recordMars ⟨[], []⟩ 1 100
        [0, 0, 0, 0, 0, 0, 0, 0]).1 1 101 [0, 0, 0, 0, 0, 0, 0, 0]).1 1 100
        [0, 0, 0, 0, 0, 0, 0, 0]).1 1 [0, 0, 0, 0, 0, 0, 0, 0]).map MarsInfo.count =
      some 3 := by
  decide

/-- C2 (amended): replay protection is relative to the record's current
`last_msg_id`.  If the stored record's `last_msg_id` equals the incoming
message id — in particular immediately after a non-skipped sighting of that
same triple, with no intervening different-message sighting — `recordMars`
yields Skipped and leaves the whole store unchanged. -/
theorem c2_replay_amended :
    (∀ (s : Store) (g m : Int) (d : List Nat) (info : MarsInfo),
      getMarsInfo s g d = some info → info.lastMsgID = m →
      recordMars s g m d = (s, ⟨info.count, info.lastMsgID, info, true⟩)) ∧
    (∀ (s : Store) (g m : Int) (d : List Nat),
      (recordMars s g m d).2.Skipped = false →
      recordMars (recordMars s g m d).1 g m d =
        ((recordMars s g m d).1,
          ⟨(recordMars s g m d).2.Info.count, m, (recordMars s g m d).2.Info, true⟩)) := by
  constructor
  · intro s g m d info hfind hlast
    exact recordMars_skip s g m d info hfind (Or.inl hlast)
  · intro s g m d h
    obtain ⟨hself, hlast⟩ := getMarsInfo_recordMars_self s g m d h
    have := recordMars_skip (recordMars s g m d).1 g m d
      (recordMars s g m d).2.Info hself (Or.inl hlast)
    rw [this, hlast]

/-- C2 witness: immediate replay of `(1, d, 100)` right after it was first
recorded is skipped with the store unchanged. -/
theorem c2_replay_amended_w :
    recordMars (recordMars ⟨[], []⟩ 1 100 [1, 0, 0, 0, 0, 0, 0, 0]).1
        1 100 [1, 0, 0, 0, 0, 0, 0, 0] =
      ((recordMars ⟨[], []⟩ 1 100 [1, 0, 0, 0, 0, 0, 0, 0]).1,
        ⟨(recordMars ⟨[], []⟩ 1 100 [1, 0, 0, 0, 0, 0, 0, 0]).2.Info.count, 100,
          (recordMars ⟨[], []⟩ 1 100 [1, 0, 0, 0, 0, 0, 0, 0]).2.Info, true⟩) :=
  c2_replay_amended.2 ⟨[], []⟩ 1 100 [1, 0, 0, 0, 0, 0, 0, 0] (by decide)

/-! ### C3: whitelist freezes the record -/

/-- Fold a sequence of sightings `(group, message, fingerprint)` through
`recordMars`, keeping the store. -/
def applySightings (s : Store) (l : List (Int × Int × List Nat)) : Store :=
  l.foldl (fun st e => (recordMars st e.1 e.2.1 e.2.2).1) s

/-- C3: once a record's `in_whitelist` flag is set, every sighting of that
`(group, fingerprint)` pair — any message id — is Skipped and mutates
nothing, and the record survives any further sequence of sightings
unchanged. -/
theorem c3_whitelist_freeze (s : Store) (g : Int) (d : List Nat) (info : MarsInfo)
    (hfind : getMarsInfo s g d = some info) (hwl : info.inWhitelist ≠ 0) :
    (∀ m, recordMars s g m d = (s, ⟨info.count, info.lastMsgID, info, true⟩)) ∧
    (∀ l, getMarsInfo (applySightings s l) g d = some info) := by
  have hstep : ∀ (s2 : Store), getMarsInfo s2 g d = some info →
      ∀ (e : Int × Int × List Nat),
        getMarsInfo (recordMars s2 e.1 e.2.1 e.2.2).1 g d = some info := by
    intro s2 h2 e
    by_cases hkey : g = e.1 ∧ d = e.2.2
    · obtain ⟨hg, hd⟩ := hkey
      rw [← hg, ← hd, recordMars_skip s2 g e.2.1 d info h2 (Or.inr hwl)]
      exact h2
    · rw [getMarsInfo_recordMars_other s2 e.1 g e.2.1 e.2.2 d hkey]
      exact h2
  constructor
  · intro m
    exact recordMars_skip s g m d info hfind (Or.inr hwl)
  · have key : ∀ (l : List (Int × Int × List Nat)) (s2 : Store),
        getMarsInfo s2 g d = some info →
        getMarsInfo (applySightings s2 l) g d = some info := by
      intro l
      induction l with
      | nil => intro s2 h2; exact h2
      | cons e t ih =>
          intro s2 h2
          exact ih _ (hstep s2 h2 e)
    intro l
    exact key l s hfind

/-- C3 witness: a whitelisted record (count 2, flag set) skips a sighting and
survives a three-sighting sequence, including sightings of its own key. -/
theorem c3_whitelist_freeze_w :
    recordMars ⟨[⟨1, [7, 0, 0, 0, 0, 0, 0, 0], 2, 50, 1⟩], [⟨1, 1⟩]⟩ 1 200
        [7, 0, 0, 0, 0, 0, 0, 0] =
      (⟨[⟨1, [7, 0, 0, 0, 0, 0, 0, 0], 2, 50, 1⟩], [⟨1, 1⟩]⟩,
        ⟨2, 50, ⟨1, [7, 0, 0, 0, 0, 0, 0, 0], 2, 50, 1⟩, true⟩) ∧
    getMarsInfo (applySightings ⟨[⟨1, [7, 0, 0, 0, 0, 0, 0, 0], 2, 50, 1⟩], [⟨1, 1⟩]⟩
        [(1, 201, [7, 0, 0, 0, 0, 0, 0, 0]), (1, 202, [9, 0, 0, 0, 0, 0, 0, 0]),
          (2, 203, [7, 0, 0, 0, 0, 0, 0, 0])]) 1 [7, 0, 0, 0, 0, 0, 0, 0] =
      some ⟨1, [7, 0, 0, 0, 0, 0, 0, 0], 2, 50, 1⟩ := by
  have h := c3_whitelist_freeze ⟨[⟨1, [7, 0, 0, 0, 0, 0, 0, 0], 2, 50, 1⟩], [⟨1, 1⟩]⟩
    1 [7, 0, 0, 0, 0, 0, 0, 0] ⟨1, [7, 0, 0, 0, 0, 0, 0, 0], 2, 50, 1⟩
    (by decide) (by decide)
  exact ⟨h.1 200, h.2 [(1, 201, [7, 0, 0, 0, 0, 0, 0, 0]),
    (1, 202, [9, 0, 0, 0, 0, 0, 0, 0]), (2, 203, [7, 0, 0, 0, 0, 0, 0, 0])]⟩

/-! ### C10: SetMarsWhitelist frame effect -/

/-- C10: for an existing record, `SetMarsWhitelist` changes only the
`in_whitelist` field — `count` and `last_msg_id` survive — and leaves every
other record and the stat table alone; for an absent key it inserts a fresh
row with `count = 0` and `last_msg_id = 0`. -/
theorem c10_whitelist_frame (s : Store) (g : Int) (d : List Nat) (f : Int) :
    (∀ info, getMarsInfo s g d = some info →
      getMarsInfo (setMarsWhitelist s g d f) g d =
        some ⟨info.groupID, info.picDhash, info.count, info.lastMsgID, f⟩) ∧
    (getMarsInfo s g d = none →
      (setMarsWhitelist s g d f).marsInfo = s.marsInfo ++ [⟨g, d, 0, 0, f⟩]) ∧
    (∀ g2 d2, ¬(g2 = g ∧ d2 = d) →
      getMarsInfo (setMarsWhitelist s g d f) g2 d2 = getMarsInfo s g2 d2) ∧
    (setMarsWhitelist s g d f).groupStat = s.groupStat := by
  refine ⟨?_, ?_, ?_, groupStat_set s g d f⟩
  · intro info hfind
    rw [getMarsInfo_set_self, hfind]
    rfl
  · intro habs
    simp [setMarsWhitelist, habs]
  · intro g2 d2 hne
    exact getMarsInfo_set_other s g g2 d d2 f hne

/-- C10 witness: whitelisting an existing record `(1, d)` with count 5 keeps
count and last message id; whitelisting an absent key inserts `(0, 0, flag)`
at the end. -/
theorem c10_whitelist_frame_w :
    getMarsInfo (setMarsWhitelist ⟨[⟨1, [4, 0, 0, 0, 0, 0, 0, 0], 5, 42, 0⟩], []⟩ 1
        [4, 0, 0, 0, 0, 0, 0, 0] 1) 1 [4, 0, 0, 0, 0, 0, 0, 0] =
      some ⟨1, [4, 0, 0, 0, 0, 0, 0, 0], 5, 42, 1⟩ ∧
    (setMarsWhitelist ⟨[⟨1, [4, 0, 0, 0, 0, 0, 0, 0], 5, 42, 0⟩], []⟩ 2
        [4, 0, 0, 0, 0, 0, 0, 0] 1).marsInfo =
      [⟨1, [4, 0, 0, 0, 0, 0, 0, 0], 5, 42, 0⟩] ++ [⟨2, [4, 0, 0, 0, 0, 0, 0, 0], 0, 0, 1⟩] := by
  constructor
  · exact (c10_whitelist_frame ⟨[⟨1, [4, 0, 0, 0, 0, 0, 0, 0], 5, 42, 0⟩], []⟩ 1
      [4, 0, 0, 0, 0, 0, 0, 0] 1).1 ⟨1, [4, 0, 0, 0, 0, 0, 0, 0], 5, 42, 0⟩ (by decide)
  · exact (c10_whitelist_frame ⟨[⟨1, [4, 0, 0, 0, 0, 0, 0, 0], 5, 42, 0⟩], []⟩ 2
      [4, 0, 0, 0, 0, 0, 0, 0] 1).2.1 (by decide)

/-! ### C4: the group-stat invariant -/

/-- Number of records of group `g` whose count is positive. -/
def countPos (g : Int) (l : List MarsInfo) : Nat :=
  (l.filter fun r => decide (r.groupID = g ∧ 0 < r.count)).length

/-- The `mars_info` table holds at most one row per `(group_id, pic_dhash)`. -/
def keysOK (l : List MarsInfo) : Prop :=
  l.Pairwise fun a b => ¬(a.groupID = b.groupID ∧ a.picDhash = b.picDhash)

/-- Stores reachable from the empty database through sightings and whitelist
upserts — the only operations that write these two tables. -/
inductive Reachable : Store → Prop
  | empty : Reachable ⟨[], []⟩
  | sight (s : Store) (g m : Int) (d : List Nat) :
      Reachable s → Reachable (recordMars s g m d).1
  | whitelist (s : Store) (g : Int) (d : List Nat) (f : Int) :
      Reachable s → Reachable (setMarsWhitelist s g d f)

theorem marsInfo_inc_some (s : Store) (g : Int) (d : List Nat) (m : Int) (info : MarsInfo)
    (hfind : getMarsInfo s g d = some info) :
    (incrementMarsInfo s g d m).2.marsInfo =
      s.marsInfo.map fun r => if isKey g d r then incRow m r else r := by
  simp [incrementMarsInfo, hfind]

theorem marsInfo_inc_none (s : Store) (g : Int) (d : List Nat) (m : Int)
    (habs : getMarsInfo s g d = none) :
    (incrementMarsInfo s g d m).2.marsInfo = s.marsInfo ++ [⟨g, d, 1, m, 0⟩] := by
  simp [incrementMarsInfo, habs]

theorem marsInfo_set_some (s : Store) (g : Int) (d : List Nat) (f : Int) (info : MarsInfo)
    (hfind : getMarsInfo s g d = some info) :
    (setMarsWhitelist s g d f).marsInfo =
      s.marsInfo.map fun r => if isKey g d r then setWlRow f r else r := by
  simp [setMarsWhitelist, hfind]

theorem marsInfo_set_none (s : Store) (g : Int) (d : List Nat) (f : Int)
    (habs : getMarsInfo s g d = none) :
    (setMarsWhitelist s g d f).marsInfo = s.marsInfo ++ [⟨g, d, 0, 0, f⟩] := by
  simp [setMarsWhitelist, habs]

/-- A key-preserving pointwise update keeps the uniqueness of keys. -/
theorem keysOK_map (f : MarsInfo → MarsInfo)
    (hf : ∀ r, (f r).groupID = r.groupID ∧ (f r).picDhash = r.picDhash)
    (l : List MarsInfo) (h : keysOK l) : keysOK (l.map f) := by
  unfold keysOK at h ⊢
  rw [List.pairwise_map]
  refine h.imp ?_
  intro a b hab
  rw [(hf a).1, (hf a).2, (hf b).1, (hf b).2]
  exact hab

/-- Appending a row whose key is absent keeps the uniqueness of keys. -/
theorem keysOK_append (l : List MarsInfo) (row : MarsInfo) (h : keysOK l)
    (habs : l.find? (isKey row.groupID row.picDhash) = none) :
    keysOK (l ++ [row]) := by
  unfold keysOK
  rw [List.pairwise_append]
  refine ⟨h, List.pairwise_singleton _ _, ?_⟩
  intro a ha b hb
  simp only [List.mem_singleton] at hb
  subst hb
  have hnot := List.find?_eq_none.mp habs a ha
  simp only [isKey, decide_eq_true_eq] at hnot
  exact hnot

/-- An update preserving group and count leaves `countPos` unchanged. -/
theorem countPos_map_pres (g : Int) (f : MarsInfo → MarsInfo)
    (hf : ∀ r, (f r).groupID = r.groupID ∧ (f r).count = r.count)
    (l : List MarsInfo) : countPos g (l.map f) = countPos g l := by
  unfold countPos
  apply length_filter_map_pres
  intro a
  simp [(hf a).1, (hf a).2]

theorem countPos_append (g : Int) (l : List MarsInfo) (row : MarsInfo) :
    countPos g (l ++ [row]) =
      countPos g l + (if row.groupID = g ∧ 0 < row.count then 1 else 0) := by
  unfold countPos
  rw [List.filter_append]
  by_cases h : row.groupID = g ∧ 0 < row.count <;> simp [List.filter, h]

theorem countPos_cons (g : Int) (a : MarsInfo) (t : List MarsInfo) :
    countPos g (a :: t) = (if a.groupID = g ∧ 0 < a.count then 1 else 0) + countPos g t := by
  unfold countPos
  rw [List.filter_cons]
  by_cases h : a.groupID = g ∧ 0 < a.count
  · simp [h]
    omega
  · simp [h]

/-- `countPos` after the conditional update of `incrementMarsInfo`: the
matched row's group gains one exactly when its count was zero. -/
theorem countPos_inc_update (g' g : Int) (d : List Nat) (m : Int) :
    ∀ (l : List MarsInfo) (info : MarsInfo), keysOK l →
      l.find? (isKey g d) = some info →
      countPos g' (l.map fun r => if isKey g d r then incRow m r else r) =
        countPos g' l + (if g' = g ∧ info.count = 0 then 1 else 0) := by
  intro l
  induction l with
  | nil => intro info _ hfind; simp at hfind
  | cons a t ih =>
      intro info hOK hfind
      unfold keysOK at hOK
      rw [List.pairwise_cons] at hOK
      by_cases ha : isKey g d a = true
      · have hinfo : info = a := by
          rw [List.find?_cons_of_pos _ ha] at hfind
          exact (Option.some.inj hfind).symm
        subst hinfo
        have hkey : info.groupID = g ∧ info.picDhash = d := by
          simpa [isKey] using ha
        have ht : ∀ b ∈ t, isKey g d b = false := by
          intro b hb
          have hnb := hOK.1 b hb
          simp only [isKey, decide_eq_false_iff_not]
          rintro ⟨h1, h2⟩
          exact hnb ⟨by rw [hkey.1, h1], by rw [hkey.2, h2]⟩
        have hmap : (t.map fun r => if isKey g d r then incRow m r else r) = t := by
          have hpt : ∀ b ∈ t, (if isKey g d b then incRow m b else b) = id b := by
            intro b hb
            rw [ht b hb]
            rfl
          rw [List.map_congr_left hpt, List.map_id]
        simp only [List.map_cons, if_pos ha, hmap]
        rw [countPos_cons, countPos_cons]
        have hginc : (incRow m info).groupID = info.groupID := rfl
        have hcinc : (incRow m info).count = info.count + 1 := rfl
        by_cases hg2 : info.groupID = g'
        · by_cases hc : info.count = 0
          · have hA : (incRow m info).groupID = g' ∧ 0 < (incRow m info).count :=
              ⟨hginc.trans hg2, by rw [hcinc, hc]; norm_num⟩
            have hB : ¬(info.groupID = g' ∧ 0 < info.count) := by
              rintro ⟨h1, h2⟩
              rw [hc] at h2
              exact absurd h2 (lt_irrefl 0)
            have hC : g' = g ∧ info.count = 0 := ⟨hg2.symm.trans hkey.1, hc⟩
            rw [if_pos hA, if_neg hB, if_pos hC]
            omega
          · have hiff : ((incRow m info).groupID = g' ∧ 0 < (incRow m info).count) ↔
                (info.groupID = g' ∧ 0 < info.count) := by
              rw [hginc, hcinc]
              exact and_congr_right fun _ => by omega
            have hD : ¬(g' = g ∧ info.count = 0) := fun hcon => hc hcon.2
            rw [if_congr hiff rfl rfl, if_neg hD]
            omega
        · have hA : ¬((incRow m info).groupID = g' ∧ 0 < (incRow m info).count) :=
            fun hcon => hg2 (hginc.symm.trans hcon.1)
          have hB : ¬(info.groupID = g' ∧ 0 < info.count) := fun hcon => hg2 hcon.1
          have hC : ¬(g' = g ∧ info.count = 0) := by
            rintro ⟨h1, _⟩
            exact hg2 (by rw [hkey.1, h1])
          rw [if_neg hA, if_neg hB, if_neg hC]
          omega
      · have hfind2 : t.find? (isKey g d) = some info := by
          rw [List.find?_cons_of_neg _ (by simp [ha])] at hfind
          exact hfind
        simp only [List.map_cons, if_neg (by simp [ha] : ¬isKey g d a = true)]
        rw [countPos_cons, countPos_cons, ih info hOK.2 hfind2]
        omega

/-- The combined reachability invariant: keys are unique and every group's
stored `image_count` equals its number of positive-count records. -/
theorem reachable_inv (s : Store) (h : Reachable s) :
    keysOK s.marsInfo ∧ ∀ g, groupStatCount s g = (countPos g s.marsInfo : Int) := by
  induction h with
  | empty =>
      constructor
      · exact List.Pairwise.nil
      · intro g
        simp [groupStatCount, countPos, List.find?]
  | sight s g m d hr ih =>
      obtain ⟨hOK, hstat⟩ := ih
      cases hfind : getMarsInfo s g d with
      | some info =>
          have hfind' : s.marsInfo.find? (isKey g d) = some info := hfind
          by_cases hskip : info.lastMsgID = m ∨ info.inWhitelist ≠ 0
          · rw [recordMars_skip s g m d info hfind hskip]
            exact ⟨hOK, hstat⟩
          · rw [recordMars_present s g m d info hfind hskip]
            have hmi := marsInfo_inc_some s g d m info hfind
            have hOK2 : keysOK ((incrementMarsInfo s g d m).2.marsInfo) := by
              rw [hmi]
              exact keysOK_map _
                (fun r => by by_cases hb : isKey g d r = true <;> simp [hb, incRow]) _ hOK
            have hcp : ∀ g2, countPos g2 ((incrementMarsInfo s g d m).2.marsInfo) =
                countPos g2 s.marsInfo + (if g2 = g ∧ info.count = 0 then 1 else 0) := by
              intro g2
              rw [hmi]
              exact countPos_inc_update g2 g d m s.marsInfo info hOK hfind'
            by_cases hc : info.count = 0
            · rw [if_pos hc]
              constructor
              · rw [marsInfo_incStat]
                exact hOK2
              · intro g2
                rw [marsInfo_incStat, hcp g2]
                by_cases hg2 : g2 = g
                · rw [hg2, groupStatCount_incStat_self, groupStatCount_incMars, hstat g,
                    if_pos ⟨rfl, hc⟩]
                  push_cast
                  ring
                · rw [groupStatCount_incStat_other _ _ _ hg2, groupStatCount_incMars,
                    hstat g2, if_neg (fun hcon => hg2 hcon.1)]
                  simp
            · rw [if_neg hc]
              refine ⟨hOK2, ?_⟩
              intro g2
              rw [groupStatCount_incMars, hstat g2, hcp g2,
                if_neg (fun hcon => hc hcon.2)]
              simp
      | none =>
          have hfind' : s.marsInfo.find? (isKey g d) = none := hfind
          rw [recordMars_absent s g m d hfind]
          have hmi := marsInfo_inc_none s g d m hfind
          constructor
          · rw [marsInfo_incStat, hmi]
            exact keysOK_append s.marsInfo ⟨g, d, 1, m, 0⟩ hOK hfind'
          · intro g2
            rw [marsInfo_incStat, hmi, countPos_append]
            by_cases hg2 : g2 = g
            · rw [hg2, groupStatCount_incStat_self, groupStatCount_incMars, hstat g]
              have hrow : ((⟨g, d, 1, m, 0⟩ : MarsInfo).groupID = g ∧
                  0 < (⟨g, d, 1, m, 0⟩ : MarsInfo).count) := by
                constructor
                · rfl
                · norm_num
              rw [if_pos hrow]
              push_cast
              ring
            · rw [groupStatCount_incStat_other _ _ _ hg2, groupStatCount_incMars, hstat g2]
              have : ¬((⟨g, d, 1, m, 0⟩ : MarsInfo).groupID = g2 ∧
                  0 < (⟨g, d, 1, m, 0⟩ : MarsInfo).count) := by
                rintro ⟨hq, _⟩
                exact hg2 hq.symm
              rw [if_neg this]
              simp
  | whitelist s g d f hr ih =>
      obtain ⟨hOK, hstat⟩ := ih
      cases hfind : getMarsInfo s g d with
      | some info =>
          have hmi := marsInfo_set_some s g d f info hfind
          constructor
          · rw [hmi]
            exact keysOK_map _
              (fun r => by by_cases hb : isKey g d r = true <;> simp [hb, setWlRow]) _ hOK
          · intro g2
            rw [groupStatCount_set, hstat g2, hmi,
              countPos_map_pres g2 _
                (fun r => by by_cases hb : isKey g d r = true <;> simp [hb, setWlRow])]
      | none =>
          have hfind' : s.marsInfo.find? (isKey g d) = none := hfind
          have hmi := marsInfo_set_none s g d f hfind
          constructor
          · rw [hmi]
            exact keysOK_append s.marsInfo ⟨g, d, 0, 0, f⟩ hOK hfind'
          · intro g2
            rw [groupStatCount_set, hstat g2, hmi, countPos_append]
            have : ¬((⟨g, d, 0, 0, f⟩ : MarsInfo).groupID = g2 ∧
                0 < (⟨g, d, 0, 0, f⟩ : MarsInfo).count) := by
              rintro ⟨_, hq⟩
              exact absurd hq (by norm_num)
            rw [if_neg this]
            simp

/-- C4 counterexample: a whitelist upsert on an absent key creates a
`mars_info` row (rows are never deleted, so this row was "ever created" for
group 1) while `image_count` stays 0 — the claimed equality fails on this
reachable store. -/
theorem c4_stat_cex :
    (setMarsWhitelist ⟨[], []⟩ 1 [2, 0, 0, 0, 0, 0, 0, 0] 1).marsInfo.length = 1 ∧
    (∀ r ∈ (setMarsWhitelist ⟨[], []⟩ 1 [2, 0, 0, 0, 0, 0, 0, 0] 1).marsInfo,
      r.groupID = 1) ∧
    groupStatCount (setMarsWhitelist ⟨[], []⟩ 1 [2, 0, 0, 0, 0, 0, 0, 0] 1) 1 = 0 := by
  decide

/-- C4 (amended): in every reachable store, `image_count` equals the number of
the group's records whose count is positive, i.e. the records actually
introduced by a sighting; rows created only by a whitelist upsert carry
count 0 and are not counted until first sighted. -/
theorem c4_stat_invariant (s : Store) (h : Reachable s) (g : Int) :
    groupStatCount s g = (countPos g s.marsInfo : Int) :=
  (reachable_inv s h).2 g

/-- C4 witness: the invariant evaluated on the store reached by a whitelist
upsert followed by two sightings. -/
theorem c4_stat_invariant_w :
    groupStatCount (recordMars (recordMars (setMarsWhitelist ⟨[], []⟩ 1
        [2, 0, 0, 0, 0, 0, 0, 0] 1) 1 100 [3, 0, 0, 0, 0, 0, 0, 0]).1 2 101
        [3, 0, 0, 0, 0, 0, 0, 0]).1 1 =
      (countPos 1 (recordMars (recordMars (setMarsWhitelist ⟨[], []⟩ 1
        [2, 0, 0, 0, 0, 0, 0, 0] 1) 1 100 [3, 0, 0, 0, 0, 0, 0, 0]).1 2 101
        [3, 0, 0, 0, 0, 0, 0, 0]).1.marsInfo : Int) :=
  c4_stat_invariant _
    (Reachable.sight _ 2 101 [3, 0, 0, 0, 0, 0, 0, 0]
      (Reachable.sight _ 1 100 [3, 0, 0, 0, 0, 0, 0, 0]
        (Reachable.whitelist _ 1 [2, 0, 0, 0, 0, 0, 0, 0] 1 Reachable.empty))) 1

/-! ### C5: dhash bit packing -/

/-- One output byte of `mini_pack_dhash_bits` (mini_cv.c): the inner x-loop
for row `y`.  For `x < 8` the bit index is `y * 8 + x`, the byte written is
`out_hash[bit_index >> 3] = out_hash[y]`, and the mask is
`1 << (7 - (bit_index & 7))`; the bit is set when `row[x] > row[x + 1]`. -/
def dhashRowByte (img : Nat → Nat → Nat) (y : Nat) : Nat :=
  (List.range 8).foldl
    (fun acc x =>
      if img y x > img y (x + 1) then acc ||| (1 <<< (7 - (y * 8 + x) % 8)) else acc) 0

/-- `mini_pack_dhash_bits` (mini_cv.c): the 8-byte dhash of a 9-column,
8-row grayscale grid `img y x` (row `y`, column `x`). -/
def mini_pack_dhash_bits (img : Nat → Nat → Nat) : List Nat :=
  (List.range 8).map (dhashRowByte img)

theorem testBit_cond_or (b : Prop) [Decidable b] (a mask k : Nat) :
    Nat.testBit (if b then a ||| mask else a) k =
      (Nat.testBit a k || (decide b && Nat.testBit mask k)) := by
  by_cases hb : b <;> simp [hb, Nat.testBit_or]

theorem testBit_cond (b : Prop) [Decidable b] (v k : Nat) :
    Nat.testBit (if b then v else 0) k = (decide b && Nat.testBit v k) := by
  by_cases hb : b <;> simp [hb]

/-- Bit `7 - x` of row byte `y` is set iff the row's pixel `x` is strictly
brighter than its right neighbour. -/
theorem dhashRowByte_testBit (img : Nat → Nat → Nat) (y x : Nat) (hx : x < 8) :
    Nat.testBit (dhashRowByte img y) (7 - x) = decide (img y x > img y (x + 1)) := by
  have hrange : List.range 8 = [0, 1, 2, 3, 4, 5, 6, 7] := rfl
  have hm : ∀ c : Nat, (y * 8 + c) % 8 = c % 8 := fun c => by omega
  have t128 : ∀ k, Nat.testBit 128 k = decide (7 = k) := fun k => by
    rw [show (128 : Nat) = 2 ^ 7 by norm_num]
    exact Nat.testBit_two_pow
  have t64 : ∀ k, Nat.testBit 64 k = decide (6 = k) := fun k => by
    rw [show (64 : Nat) = 2 ^ 6 by norm_num]
    exact Nat.testBit_two_pow
  have t32 : ∀ k, Nat.testBit 32 k = decide (5 = k) := fun k => by
    rw [show (32 : Nat) = 2 ^ 5 by norm_num]
    exact Nat.testBit_two_pow
  have t16 : ∀ k, Nat.testBit 16 k = decide (4 = k) := fun k => by
    rw [show (16 : Nat) = 2 ^ 4 by norm_num]
    exact Nat.testBit_two_pow
  have t8 : ∀ k, Nat.testBit 8 k = decide (3 = k) := fun k => by
    rw [show (8 : Nat) = 2 ^ 3 by norm_num]
    exact Nat.testBit_two_pow
  have t4 : ∀ k, Nat.testBit 4 k = decide (2 = k) := fun k => by
    rw [show (4 : Nat) = 2 ^ 2 by norm_num]
    exact Nat.testBit_two_pow
  have t2 : ∀ k, Nat.testBit 2 k = decide (1 = k) := fun k => by
    rw [show (2 : Nat) = 2 ^ 1 by norm_num]
    exact Nat.testBit_two_pow
  have t1 : ∀ k, Nat.testBit 1 k = decide (0 = k) := fun k => by
    rw [show (1 : Nat) = 2 ^ 0 by norm_num]
    exact Nat.testBit_two_pow
  unfold dhashRowByte
  rw [hrange]
  simp only [List.foldl, hm]
  interval_cases x <;>
  · simp only [testBit_cond_or, testBit_cond]
    simp [t128, t64, t32, t16, t8, t4, t2, t1]

/-- C5: the hash encoder sets bit `y*8+x` of the 8-byte fingerprint (MSB-first
inside each byte, row-major, so bit `7-x` of byte `y`) exactly when
`grid[y][x] > grid[y][x+1]`; it is a pure function of the grid, and every
constant grid hashes to the all-zero fingerprint. -/
theorem c5_dhash_bits (img img2 : Nat → Nat → Nat) (y x : Nat) (hy : y < 8) (hx : x < 8)
    (hext : ∀ a b, img a b = img2 a b) :
    Nat.testBit ((mini_pack_dhash_bits img).getD y 0) (7 - x) =
      decide (img y x > img y (x + 1)) ∧
    mini_pack_dhash_bits img = mini_pack_dhash_bits img2 ∧
    (∀ v, mini_pack_dhash_bits (fun _ _ => v) = [0, 0, 0, 0, 0, 0, 0, 0]) := by
  refine ⟨?_, ?_, ?_⟩
  · interval_cases y <;> exact dhashRowByte_testBit img _ x hx
  · have himg : img = img2 := funext fun a => funext fun b => hext a b
    rw [himg]
  · intro v
    have hbyte : ∀ yy, dhashRowByte (fun _ _ => v) yy = 0 := by
      intro yy
      unfold dhashRowByte
      simp [lt_irrefl]
    rw [mini_pack_dhash_bits, show List.range 8 = [0, 1, 2, 3, 4, 5, 6, 7] from rfl]
    simp [hbyte]

/-- C5 witness: a left-to-right decreasing row grid sets bit (2,3); a constant
grid hashes to zero. -/
theorem c5_dhash_bits_w :
    Nat.testBit ((mini_pack_dhash_bits fun _ x => 8 - x).getD 2 0) 4 = true ∧
    mini_pack_dhash_bits (fun _ _ => 77) = [0, 0, 0, 0, 0, 0, 0, 0] := by
  have h := c5_dhash_bits (fun _ x => 8 - x) (fun _ x => 8 - x) 2 3
    (by norm_num) (by norm_num) (fun _ _ => rfl)
  refine ⟨?_, h.2.2 77⟩
  simpa using h.1

/-! ### C6: bounded-distance similarity query -/

/-- The bit count of the low 8 bits, modelling Go's `bits.OnesCount8` on a
byte value. -/
def onesCount8 (n : Nat) : Nat :=
  (List.range 8).countP fun i => n.testBit i

/-- The Go fallback `hammingDistance` (helpers.go / main.go): per-byte
popcount of the xor, with an error on length mismatch. -/
def hammingDistance (a b : List Nat) : Except String Int :=
  if a.length ≠ b.length then .error "dhash length mismatch"
  else .ok (((a.zip b).map fun p => (onesCount8 (p.1 ^^^ p.2) : Int)).sum)

/-- Insert an entry into a list that is ascending by stored distance. -/
def insertByHd (x : MarsInfo × Int) : List (MarsInfo × Int) → List (MarsInfo × Int)
  | [] => [x]
  | y :: t => if x.2 ≤ y.2 then x :: y :: t else y :: insertByHd x t

/-- ORDER BY hd: an ascending sort on the computed distance column. -/
def sortByHd (l : List (MarsInfo × Int)) : List (MarsInfo × Int) :=
  l.foldr insertByHd []

/-- Evaluate `hamming_distance(pic_dhash, src)` on every candidate row; any
row error aborts the whole query. -/
def computeHds (src : List Nat) : List MarsInfo → Except String (List (MarsInfo × Int))
  | [] => .ok []
  | r :: t =>
      match hammingDistance r.picDhash src, computeHds src t with
      | .error e, _ => .error e
      | .ok _, .error e => .error e
      | .ok hd, .ok rest => .ok ((r, hd) :: rest)

/-- `ListSimilarPhotos` (query_mars.sql): rows of the group whose Hamming
distance to `src` is strictly below the bound, ascending by distance,
LIMIT 10. -/
def listSimilarPhotos (rows : List MarsInfo) (src : List Nat) (g : Int)
    (minDistance : Int) : Except String (List (MarsInfo × Int)) :=
  match computeHds src (rows.filter fun r => decide (r.groupID = g)) with
  | .error e => .error e
  | .ok withHd =>
      .ok ((sortByHd (withHd.filter fun p => decide (p.2 < minDistance))).take 10)

theorem mem_insertByHd (x z : MarsInfo × Int) :
    ∀ l, z ∈ insertByHd x l ↔ z = x ∨ z ∈ l := by
  intro l
  induction l with
  | nil => simp [insertByHd]
  | cons y t ih =>
      unfold insertByHd
      by_cases h : x.2 ≤ y.2
      · simp [h]
      · simp [h, ih]
        tauto

theorem mem_sortByHd (z : MarsInfo × Int) :
    ∀ l, z ∈ sortByHd l ↔ z ∈ l := by
  intro l
  induction l with
  | nil => simp [sortByHd]
  | cons y t ih =>
      unfold sortByHd at ih ⊢
      simp [List.foldr, mem_insertByHd, ih]

theorem sorted_insertByHd (x : MarsInfo × Int) :
    ∀ l, l.Pairwise (fun a b => a.2 ≤ b.2) →
      (insertByHd x l).Pairwise (fun a b => a.2 ≤ b.2) := by
  intro l
  induction l with
  | nil => intro _; simp [insertByHd]
  | cons y t ih =>
      intro hp
      rw [List.pairwise_cons] at hp
      unfold insertByHd
      by_cases h : x.2 ≤ y.2
      · rw [if_pos h, List.pairwise_cons]
        refine ⟨?_, List.pairwise_cons.mpr hp⟩
        intro z hz
        rcases List.mem_cons.mp hz with hz | hz
        · rw [hz]
          exact h
        · exact le_trans h (hp.1 z hz)
      · rw [if_neg h, List.pairwise_cons]
        refine ⟨?_, ih hp.2⟩
        intro z hz
        rcases (mem_insertByHd x z t).mp hz with hz | hz
        · rw [hz]
          omega
        · exact hp.1 z hz

theorem sorted_sortByHd : ∀ l : List (MarsInfo × Int),
    (sortByHd l).Pairwise (fun a b => a.2 ≤ b.2) := by
  intro l
  induction l with
  | nil => simp [sortByHd]
  | cons y t ih =>
      unfold sortByHd at ih ⊢
      exact sorted_insertByHd y _ ih

theorem computeHds_ok_mem (src : List Nat) :
    ∀ (l : List MarsInfo) (l' : List (MarsInfo × Int)), computeHds src l = .ok l' →
      ∀ p ∈ l', p.1 ∈ l ∧ hammingDistance p.1.picDhash src = .ok p.2 := by
  intro l
  induction l with
  | nil =>
      intro l' h p hp
      simp only [computeHds] at h
      cases h
      simp at hp
  | cons r t ih =>
      intro l' h p hp
      simp only [computeHds] at h
      cases hh : hammingDistance r.picDhash src with
      | error e => rw [hh] at h; cases h
      | ok hd =>
          rw [hh] at h
          cases hrest : computeHds src t with
          | error e => rw [hrest] at h; cases h
          | ok rest =>
              rw [hrest] at h
              cases h
              rcases List.mem_cons.mp hp with hp | hp
              · rw [hp]
                exact ⟨List.mem_cons_self r t, hh⟩
              · obtain ⟨h1, h2⟩ := ih rest hrest p hp
                exact ⟨List.mem_cons_of_mem r h1, h2⟩

/-- C6: the similarity query returns only records of the requested group with
Hamming distance strictly below the bound, ascending by distance, at most 10
entries; on the concrete store with distances 2, 9, 5 (and a foreign-group
row at distance 0) and bound 6 it returns exactly the distance-2 and
distance-5 entries in that order. -/
theorem c6_similar_query :
    (∀ (rows : List MarsInfo) (src : List Nat) (g minDistance : Int)
        (l : List (MarsInfo × Int)),
      listSimilarPhotos rows src g minDistance = .ok l →
      (∀ p ∈ l, p.1.groupID = g ∧ hammingDistance p.1.picDhash src = .ok p.2 ∧
        p.2 < minDistance) ∧
      l.Pairwise (fun a b => a.2 ≤ b.2) ∧ l.length ≤ 10) ∧
    listSimilarPhotos
      [⟨1, [3, 0, 0, 0, 0, 0, 0, 0], 1, 10, 0⟩, ⟨1, [255, 1, 0, 0, 0, 0, 0, 0], 2, 11, 0⟩,
        ⟨1, [31, 0, 0, 0, 0, 0, 0, 0], 3, 12, 0⟩, ⟨2, [0, 0, 0, 0, 0, 0, 0, 0], 4, 13, 0⟩]
      [0, 0, 0, 0, 0, 0, 0, 0] 1 6 =
      .ok [(⟨1, [3, 0, 0, 0, 0, 0, 0, 0], 1, 10, 0⟩, 2),
        (⟨1, [31, 0, 0, 0, 0, 0, 0, 0], 3, 12, 0⟩, 5)] := by
  constructor
  · intro rows src g minDistance l hok
    unfold listSimilarPhotos at hok
    cases hch : computeHds src (rows.filter fun r => decide (r.groupID = g)) with
    | error e => rw [hch] at hok; cases hok
    | ok withHd =>
        rw [hch] at hok
        have hl : l = (sortByHd (withHd.filter fun p => decide (p.2 < minDistance))).take 10 :=
          (Except.ok.inj hok).symm
        subst hl
        refine ⟨?_, ?_, List.length_take_le 10 _⟩
        · intro p hp
          have hp2 : p ∈ sortByHd (withHd.filter fun q => decide (q.2 < minDistance)) :=
            List.take_subset 10 _ hp
          have hp3 : p ∈ withHd.filter fun q => decide (q.2 < minDistance) :=
            (mem_sortByHd p _).mp hp2
          have hp4 := List.mem_filter.mp hp3
          have hlt : p.2 < minDistance := by simpa using hp4.2
          obtain ⟨hmemf, hham⟩ := computeHds_ok_mem src _ withHd hch p hp4.1
          have hgrp := List.mem_filter.mp hmemf
          exact ⟨by simpa using hgrp.2, hham, hlt⟩
        · exact (sorted_sortByHd _).sublist (List.take_sublist 10 _)
  · rfl

/-- C6 witness: the general properties applied to the concrete example
query. -/
theorem c6_similar_query_w :
    ((⟨1, [3, 0, 0, 0, 0, 0, 0, 0], 1, 10, 0⟩ : MarsInfo).groupID = 1 ∧
      hammingDistance [3, 0, 0, 0, 0, 0, 0, 0] [0, 0, 0, 0, 0, 0, 0, 0] = .ok 2 ∧
      (2 : Int) < 6) ∧
    ([(⟨1, [3, 0, 0, 0, 0, 0, 0, 0], 1, 10, 0⟩, 2),
      (⟨1, [31, 0, 0, 0, 0, 0, 0, 0], 3, 12, 0⟩, 5)] :
        List (MarsInfo × Int)).Pairwise (fun a b => a.2 ≤ b.2) := by
  have h := c6_similar_query.1
    [⟨1, [3, 0, 0, 0, 0, 0, 0, 0], 1, 10, 0⟩, ⟨1, [255, 1, 0, 0, 0, 0, 0, 0], 2, 11, 0⟩,
      ⟨1, [31, 0, 0, 0, 0, 0, 0, 0], 3, 12, 0⟩, ⟨2, [0, 0, 0, 0, 0, 0, 0, 0], 4, 13, 0⟩]
    [0, 0, 0, 0, 0, 0, 0, 0] 1 6
    [(⟨1, [3, 0, 0, 0, 0, 0, 0, 0], 1, 10, 0⟩, 2),
      (⟨1, [31, 0, 0, 0, 0, 0, 0, 0], 3, 12, 0⟩, 5)]
    c6_similar_query.2
  exact ⟨h.1 (⟨1, [3, 0, 0, 0, 0, 0, 0, 0], 1, 10, 0⟩, 2) (by simp), h.2.1⟩

/-! ### C7: integer-scale block downscale -/

/-- `mini_saturate_u8` (mini_cv.c): clamp an int to 0..255. -/
def mini_saturate_u8 (v : Int) : Nat :=
  if v < 0 then 0 else if v > 255 then 255 else v.toNat

/-- Round-half-to-even of the exact quotient `sum / area`, computed with
integer operations.  This models the generic path of
`mini_resize_area_fast_int`, `mini_saturate_from_float((float)sum * scale)`
with `scale = 1.0f / area` and `lrintf` under the default
round-to-nearest-ties-even mode: whenever `1 / area` is exactly representable
(in particular for every power-of-two area) and `sum < 2^24`, the float
product is exact and `lrintf` returns exactly this value. -/
def rintEvenDiv (sum area : Nat) : Nat :=
  let f := sum / area
  let r := sum % area
  if 2 * r < area then f
  else if area < 2 * r then f + 1
  else if f % 2 = 0 then f else f + 1

/-- The sum of the `iscale_x × iscale_y` source block feeding output pixel
`(dy, dx)` (single channel). -/
def blockSum (src : Nat → Nat → Nat) (dy dx iscale_y iscale_x : Nat) : Nat :=
  ((List.range iscale_y).map fun ky =>
    ((List.range iscale_x).map fun kx =>
      src (dy * iscale_y + ky) (dx * iscale_x + kx)).sum).sum

/-- `mini_resize_area_fast_int` (mini_cv.c), single channel, as the value of
output pixel `(dy, dx)`: the `iscale == (2, 2)` special case computes
`(sum + 2) >> 2`; every other integer scale multiplies the block sum by the
float reciprocal of the area and rounds to nearest (ties to even), modelled
exactly by `rintEvenDiv` (see there). -/
def mini_resize_area_fast_int (src : Nat → Nat → Nat) (iscale_x iscale_y dy dx : Nat) :
    Nat :=
  if iscale_x = 2 ∧ iscale_y = 2 then
    (src (dy * 2) (dx * 2) + src (dy * 2) (dx * 2 + 1) +
      src (dy * 2 + 1) (dx * 2) + src (dy * 2 + 1) (dx * 2 + 1) + 2) >>> 2
  else
    mini_saturate_u8 (rintEvenDiv (blockSum src dy dx iscale_y iscale_x)
      (iscale_x * iscale_y))

/-- C7 counterexample: a 4×1 block is a power-of-two block size, yet the code
does not use the claimed add-half-then-shift rounding.  For the row
`1, 1, 0, 0` the block sum is 2; add-half-and-shift gives `(2 + 2) >> 2 = 1`,
but the code's float path rounds the exact half `2/4` to the even integer 0. -/
theorem c7_resize_cex :
    mini_resize_area_fast_int (fun _ x => if x < 2 then 1 else 0) 4 1 0 0 = 0 ∧
    (blockSum (fun _ x => if x < 2 then 1 else 0) 0 0 1 4 + (4 * 1) / 2) >>> 2 = 1 := by
  decide

/-- C7 (amended): only the 2×2 scale uses the integer add-half-then-shift
average, `(block sum + 2) >> 2 = (block sum + 2) / 4`; every other exact
integer scale — power-of-two areas included — computes the block average in
floating point (sum times `1/area`) rounded to nearest with ties to even,
which at exact halves rounds to the even neighbour instead of up. -/
theorem c7_resize_fast (src : Nat → Nat → Nat) (dy dx ix iy : Nat)
    (hne : ¬(ix = 2 ∧ iy = 2)) :
    mini_resize_area_fast_int src 2 2 dy dx = (blockSum src dy dx 2 2 + 2) >>> 2 ∧
    mini_resize_area_fast_int src 2 2 dy dx = (blockSum src dy dx 2 2 + 2) / 4 ∧
    mini_resize_area_fast_int src ix iy dy dx =
      mini_saturate_u8 (rintEvenDiv (blockSum src dy dx iy ix) (ix * iy)) := by
  have hbs : blockSum src dy dx 2 2 =
      src (dy * 2) (dx * 2) + src (dy * 2) (dx * 2 + 1) +
        src (dy * 2 + 1) (dx * 2) + src (dy * 2 + 1) (dx * 2 + 1) := by
    simp [blockSum, List.range_succ]
    ring
  refine ⟨?_, ?_, ?_⟩
  · rw [mini_resize_area_fast_int, if_pos ⟨rfl, rfl⟩, hbs]
  · rw [mini_resize_area_fast_int, if_pos ⟨rfl, rfl⟩, hbs,
      Nat.shiftRight_eq_div_pow]
  · rw [mini_resize_area_fast_int, if_neg hne]

/-- C7 witness: the 2×2 identity and the 4×1 float path on the
counterexample row. -/
theorem c7_resize_fast_w :
    mini_resize_area_fast_int (fun _ x => if x < 2 then 1 else 0) 2 2 0 0 =
      (blockSum (fun _ x => if x < 2 then 1 else 0) 0 0 2 2 + 2) >>> 2 ∧
    mini_resize_area_fast_int (fun _ x => if x < 2 then 1 else 0) 4 1 0 0 =
      mini_saturate_u8 (rintEvenDiv (blockSum (fun _ x => if x < 2 then 1 else 0) 0 0 1 4)
        (4 * 1)) := by
  have h := c7_resize_fast (fun _ x => if x < 2 then 1 else 0) 0 0 4 1 (by decide)
  exact ⟨h.1, h.2.2⟩

/-! ### C8: transactional failure atomicity -/

/-- A failure injected at one of the fallible storage steps inside the
`recordMars` transaction. -/
inductive TxFail
  | lookup
  | increment
  | groupStat
  | commit
  deriving DecidableEq, Repr

/-- `(App).recordMars` with its error paths.  Each statement of the
transaction may fail (`fail` says which one does, if any); on failure the
transaction is rolled back, so the pre-state stays the visible store and an
error is returned; only a successful Commit publishes the built-up state. -/
def recordMarsF (fail : Option TxFail) (s : Store) (g m : Int) (d : List Nat) :
    Store × Except Unit marsResult :=
  if fail = some TxFail.lookup then (s, .error ())
  else
    match getMarsInfo s g d with
    | some info =>
        if info.lastMsgID = m ∨ info.inWhitelist ≠ 0 then
          (s, .ok ⟨info.count, info.lastMsgID, info, true⟩)
        else if fail = some TxFail.increment then (s, .error ())
        else if info.count = 0 then
          if fail = some TxFail.groupStat then (s, .error ())
          else if fail = some TxFail.commit then (s, .error ())
          else (incrementGroupStat (incrementMarsInfo s g d m).2 g,
            .ok ⟨info.count, info.lastMsgID, (incrementMarsInfo s g d m).1, false⟩)
        else if fail = some TxFail.commit then (s, .error ())
        else ((incrementMarsInfo s g d m).2,
          .ok ⟨info.count, info.lastMsgID, (incrementMarsInfo s g d m).1, false⟩)
    | none =>
        if fail = some TxFail.increment then (s, .error ())
        else if fail = some TxFail.groupStat then (s, .error ())
        else if fail = some TxFail.commit then (s, .error ())
        else (incrementGroupStat (incrementMarsInfo s g d m).2 g,
          .ok ⟨0, 0, (incrementMarsInfo s g d m).1, false⟩)

theorem recordMarsF_none_eq (s : Store) (g m : Int) (d : List Nat) :
    recordMarsF none s g m d = ((recordMars s g m d).1, .ok (recordMars s g m d).2) := by
  cases hfind : getMarsInfo s g d with
  | some info =>
      by_cases hskip : info.lastMsgID = m ∨ info.inWhitelist ≠ 0
      · simp [recordMarsF, recordMars, hfind, hskip]
      · by_cases hc : info.count = 0 <;>
          simp [recordMarsF, recordMars, hfind, hskip, hc]
  | none => simp [recordMarsF, recordMars, hfind]

theorem recordMarsF_err (fail : Option TxFail) (s : Store) (g m : Int) (d : List Nat)
    (herr : (recordMarsF fail s g m d).2 = .error ()) :
    (recordMarsF fail s g m d).1 = s := by
  rcases fail with _ | f
  · rw [recordMarsF_none_eq] at herr
    simp at herr
  · cases f with
    | lookup => simp [recordMarsF]
    | increment =>
        cases hfind : getMarsInfo s g d with
        | some info =>
            by_cases hskip : info.lastMsgID = m ∨ info.inWhitelist ≠ 0 <;>
              simp [recordMarsF, hfind, hskip]
        | none => simp [recordMarsF, hfind]
    | groupStat =>
        cases hfind : getMarsInfo s g d with
        | some info =>
            by_cases hskip : info.lastMsgID = m ∨ info.inWhitelist ≠ 0
            · simp [recordMarsF, hfind, hskip]
            · by_cases hc : info.count = 0
              · simp [recordMarsF, hfind, hskip, hc]
              · simp [recordMarsF, hfind, hskip, hc] at herr
        | none => simp [recordMarsF, hfind]
    | commit =>
        cases hfind : getMarsInfo s g d with
        | some info =>
            by_cases hskip : info.lastMsgID = m ∨ info.inWhitelist ≠ 0
            · simp [recordMarsF, hfind, hskip]
            · by_cases hc : info.count = 0 <;> simp [recordMarsF, hfind, hskip, hc]
        | none => simp [recordMarsF, hfind]

/-- C8: whenever any storage step of the `recordMars` transaction fails
(lookup error, record increment, group-stat increment, or commit), the whole
sighting aborts with an error and the visible store is exactly the pre-state;
the failure-free run coincides with `recordMars`, so a retry of the entire
sighting behaves as if the failed attempt never happened. -/
theorem c8_txn_atomic (fail : Option TxFail) (s : Store) (g m : Int) (d : List Nat) :
    ((recordMarsF fail s g m d).2 = .error () → (recordMarsF fail s g m d).1 = s) ∧
    recordMarsF none s g m d = ((recordMars s g m d).1, .ok (recordMars s g m d).2) ∧
    ((recordMarsF fail s g m d).2 = .error () →
      recordMarsF none (recordMarsF fail s g m d).1 g m d =
        ((recordMars s g m d).1, .ok (recordMars s g m d).2)) := by
  refine ⟨recordMarsF_err fail s g m d, recordMarsF_none_eq s g m d, ?_⟩
  intro herr
  rw [recordMarsF_err fail s g m d herr, recordMarsF_none_eq s g m d]

/-- C8 witness: a commit failure on a first sighting leaves the empty store
untouched, and the retry equals the failure-free run. -/
theorem c8_txn_atomic_w :
    (recordMarsF (some TxFail.commit) ⟨[], []⟩ 1 100 [5, 0, 0, 0, 0, 0, 0, 0]).1 =
      ⟨[], []⟩ ∧
    recordMarsF none ⟨[], []⟩ 1 100 [5, 0, 0, 0, 0, 0, 0, 0] =
      ((recordMars ⟨[], []⟩ 1 100 [5, 0, 0, 0, 0, 0, 0, 0]).1,
        .ok (recordMars ⟨[], []⟩ 1 100 [5, 0, 0, 0, 0, 0, 0, 0]).2) := by
  have h := c8_txn_atomic (some TxFail.commit) ⟨[], []⟩ 1 100 [5, 0, 0, 0, 0, 0, 0, 0]
  exact ⟨h.1 rfl, h.2.1⟩

/-! ### C9: media-group batch flush -/

/-- One entry of the `unique` map of `handleMediaGroup`: the fingerprint, the
message that first carried it, and its `recordMars` result. -/
structure AlbumItem where
  dhash : List Nat
  msgID : Int
  res : marsResult
  deriving DecidableEq, Repr

/-- Keys of the unique-fingerprint collection. -/
def albumKeys (items : List AlbumItem) : List (List Nat) :=
  items.map fun it => it.dhash

/-- One iteration of the first loop of `handleMediaGroup`: a fingerprint
already in `unique` is skipped (no second `recordMars` call); otherwise the
sighting is recorded and the item stored.  The Go map key
`hex.EncodeToString(dhash)` is modelled by the byte list itself (hex encoding
is injective). -/
def albumStep (g : Int) (acc : Store × List AlbumItem) (msg : Int × List Nat) :
    Store × List AlbumItem :=
  if acc.2.any fun it => it.dhash == msg.2 then acc
  else
    ((recordMars acc.1 g msg.1 msg.2).1,
      acc.2 ++ [⟨msg.2, msg.1, (recordMars acc.1 g msg.1 msg.2).2⟩])

/-- The first loop of `handleMediaGroup` (main.go): fold the album's messages
`(message_id, dhash)` through the per-fingerprint dedup. -/
def processAlbum (s : Store) (g : Int) (msgs : List (Int × List Nat)) :
    Store × List AlbumItem :=
  msgs.foldl (albumStep g) (s, [])

/-- The body of the second loop of `handleMediaGroup`: items with `Skipped`
or `PrevCount == 0` are ignored; a strictly greater `PrevCount` replaces the
current best. -/
def bestStep (best : Option AlbumItem) (it : AlbumItem) : Option AlbumItem :=
  if it.res.Skipped = true ∨ it.res.PrevCount = 0 then best
  else
    match best with
    | none => some it
    | some b => if b.res.PrevCount < it.res.PrevCount then some it else best

/-- The second loop of `handleMediaGroup`: pick the representative among the
outcomes.  The iteration order of the Go map is unspecified, so the list
argument stands for an arbitrary order of the unique items. -/
def selectBest (items : List AlbumItem) : Option AlbumItem :=
  items.foldl bestStep none

/-- An item eligible for the outward notification. -/
def eligible (it : AlbumItem) : Prop :=
  it.res.Skipped = false ∧ it.res.PrevCount ≠ 0

theorem selectBest_aux :
    ∀ (l : List AlbumItem) (acc : Option AlbumItem),
      (l.foldl bestStep acc = none → acc = none ∧ ∀ it ∈ l, ¬eligible it) ∧
      (∀ b, l.foldl bestStep acc = some b →
        (acc = some b ∨ (b ∈ l ∧ eligible b)) ∧
        (∀ it ∈ l, eligible it → it.res.PrevCount ≤ b.res.PrevCount) ∧
        (∀ a, acc = some a → a.res.PrevCount ≤ b.res.PrevCount)) := by
  intro l
  induction l with
  | nil =>
      intro acc
      refine ⟨fun h => ⟨h, by simp⟩, fun b h => ⟨Or.inl h, by simp, ?_⟩⟩
      intro a ha
      rw [ha] at h
      rw [Option.some.inj h]
  | cons it t ih =>
      intro acc
      by_cases hskip : it.res.Skipped = true ∨ it.res.PrevCount = 0
      · have hnel : ¬eligible it := by
          unfold eligible
          rcases hskip with h | h
          · rw [h]
            simp
          · rw [h]
            simp
        have hstep : bestStep acc it = acc := by
          unfold bestStep
          rw [if_pos hskip]
        constructor
        · intro h
          rw [List.foldl_cons, hstep] at h
          obtain ⟨h1, h2⟩ := (ih acc).1 h
          refine ⟨h1, ?_⟩
          intro z hz
          rcases List.mem_cons.mp hz with hz | hz
          · rw [hz]
            exact hnel
          · exact h2 z hz
        · intro b h
          rw [List.foldl_cons, hstep] at h
          obtain ⟨h1, h2, h3⟩ := (ih acc).2 b h
          refine ⟨?_, ?_, h3⟩
          · rcases h1 with h1 | h1
            · exact Or.inl h1
            · exact Or.inr ⟨List.mem_cons_of_mem it h1.1, h1.2⟩
          · intro z hz hez
            rcases List.mem_cons.mp hz with hz | hz
            · rw [hz] at hez
              exact absurd hez hnel
            · exact h2 z hz hez
      · have hel : eligible it := by
          unfold eligible
          push_neg at hskip
          exact ⟨by simpa using hskip.1, hskip.2⟩
        cases acc with
        | none =>
            have hstep : bestStep none it = some it := by
              unfold bestStep
              rw [if_neg hskip]
            constructor
            · intro h
              rw [List.foldl_cons, hstep] at h
              obtain ⟨h1, _⟩ := (ih (some it)).1 h
              cases h1
            · intro b h
              rw [List.foldl_cons, hstep] at h
              obtain ⟨h1, h2, h3⟩ := (ih (some it)).2 b h
              have hle : it.res.PrevCount ≤ b.res.PrevCount := h3 it rfl
              refine ⟨?_, ?_, ?_⟩
              · rcases h1 with h1 | h1
                · have heq : it = b := Option.some.inj h1
                  exact Or.inr ⟨heq ▸ List.mem_cons_self it t, heq ▸ hel⟩
                · exact Or.inr ⟨List.mem_cons_of_mem it h1.1, h1.2⟩
              · intro z hz hez
                rcases List.mem_cons.mp hz with hz | hz
                · rw [hz]
                  exact hle
                · exact h2 z hz hez
              · intro a ha
                cases ha
        | some a0 =>
            by_cases hlt : a0.res.PrevCount < it.res.PrevCount
            · have hstep : bestStep (some a0) it = some it := by
                unfold bestStep
                rw [if_neg hskip]
                simp [hlt]
              constructor
              · intro h
                rw [List.foldl_cons, hstep] at h
                obtain ⟨h1, _⟩ := (ih (some it)).1 h
                cases h1
              · intro b h
                rw [List.foldl_cons, hstep] at h
                obtain ⟨h1, h2, h3⟩ := (ih (some it)).2 b h
                have hle : it.res.PrevCount ≤ b.res.PrevCount := h3 it rfl
                refine ⟨?_, ?_, ?_⟩
                · rcases h1 with h1 | h1
                  · have heq : it = b := Option.some.inj h1
                    exact Or.inr ⟨heq ▸ List.mem_cons_self it t, heq ▸ hel⟩
                  · exact Or.inr ⟨List.mem_cons_of_mem it h1.1, h1.2⟩
                · intro z hz hez
                  rcases List.mem_cons.mp hz with hz | hz
                  · rw [hz]
                    exact hle
                  · exact h2 z hz hez
                · intro a ha
                  have ha0 : a0 = a := Option.some.inj ha
                  rw [← ha0]
                  omega
            · have hstep : bestStep (some a0) it = some a0 := by
                unfold bestStep
                rw [if_neg hskip]
                simp [hlt]
              constructor
              · intro h
                rw [List.foldl_cons, hstep] at h
                obtain ⟨h1, _⟩ := (ih (some a0)).1 h
                cases h1
              · intro b h
                rw [List.foldl_cons, hstep] at h
                obtain ⟨h1, h2, h3⟩ := (ih (some a0)).2 b h
                have hle : a0.res.PrevCount ≤ b.res.PrevCount := h3 a0 rfl
                refine ⟨?_, ?_, ?_⟩
                · rcases h1 with h1 | h1
                  · exact Or.inl h1
                  · exact Or.inr ⟨List.mem_cons_of_mem it h1.1, h1.2⟩
                · intro z hz hez
                  rcases List.mem_cons.mp hz with hz | hz
                  · rw [hz]
                    omega
                  · exact h2 z hz hez
                · intro a ha
                  have ha0 : a0 = a := Option.some.inj ha
                  rw [← ha0]
                  exact hle

theorem processAlbum_aux (g : Int) :
    ∀ (msgs : List (Int × List Nat)) (st : Store) (items : List AlbumItem),
      (albumKeys items).Nodup →
      (albumKeys (msgs.foldl (albumStep g) (st, items)).2).Nodup ∧
      ∀ dd, dd ∈ albumKeys (msgs.foldl (albumStep g) (st, items)).2 ↔
        (dd ∈ albumKeys items ∨ dd ∈ msgs.map fun msg => msg.2) := by
  intro msgs
  induction msgs with
  | nil =>
      intro st items hnd
      refine ⟨hnd, ?_⟩
      intro dd
      simp
  | cons msg t ih =>
      intro st items hnd
      by_cases hdup : items.any fun it => it.dhash == msg.2
      · have hstep : albumStep g (st, items) msg = (st, items) := by
          unfold albumStep
          rw [if_pos hdup]
        rw [List.foldl_cons, hstep]
        obtain ⟨h1, h2⟩ := ih st items hnd
        refine ⟨h1, ?_⟩
        intro dd
        rw [h2 dd]
        have hmem : msg.2 ∈ albumKeys items := by
          obtain ⟨it, hit, heq⟩ := List.any_eq_true.mp hdup
          have : it.dhash = msg.2 := by simpa using heq
          exact this ▸ List.mem_map_of_mem (fun z => z.dhash) hit
        constructor
        · rintro (h | h)
          · exact Or.inl h
          · exact Or.inr (List.mem_cons_of_mem _ h)
        · rintro (h | h)
          · exact Or.inl h
          · rcases List.mem_cons.mp h with h | h
            · exact Or.inl (h ▸ hmem)
            · exact Or.inr h
      · have hstep : albumStep g (st, items) msg =
            ((recordMars st g msg.1 msg.2).1,
              items ++ [⟨msg.2, msg.1, (recordMars st g msg.1 msg.2).2⟩]) := by
          unfold albumStep
          rw [if_neg hdup]
        have hnotmem : msg.2 ∉ albumKeys items := by
          intro hmem
          obtain ⟨it, hit, heq⟩ := List.mem_map.mp hmem
          apply hdup
          rw [List.any_eq_true]
          exact ⟨it, hit, by simpa using heq⟩
        have hnd2 : (albumKeys (items ++ [⟨msg.2, msg.1,
            (recordMars st g msg.1 msg.2).2⟩])).Nodup := by
          unfold albumKeys
          rw [List.map_append, List.nodup_append]
          refine ⟨hnd, List.nodup_singleton _, ?_⟩
          intro a ha hb
          have hb2 : a = msg.2 := by simpa using hb
          rw [hb2] at ha
          exact hnotmem ha
        rw [List.foldl_cons, hstep]
        obtain ⟨h1, h2⟩ := ih _ _ hnd2
        refine ⟨h1, ?_⟩
        intro dd
        rw [h2 dd]
        unfold albumKeys
        simp only [List.map_append, List.map_cons, List.map_nil, List.mem_append,
          List.mem_cons, List.mem_singleton]
        tauto

/-- C9 counterexample: an album of two fresh images yields two non-Skipped
(FirstSeen) outcomes, yet no representative is selected — the second loop
also discards every outcome with `PrevCount == 0`, so no notification fires
although non-Skipped outcomes exist. -/
theorem c9_album_cex :
    (∀ it ∈ (processAlbum ⟨[], []⟩ 1
        [(100, [1, 0, 0, 0, 0, 0, 0, 0]), (101, [2, 0, 0, 0, 0, 0, 0, 0])]).2,
      it.res.Skipped = false) ∧
    (processAlbum ⟨[], []⟩ 1
        [(100, [1, 0, 0, 0, 0, 0, 0, 0]), (101, [2, 0, 0, 0, 0, 0, 0, 0])]).2.length = 2 ∧
    selectBest (processAlbum ⟨[], []⟩ 1
        [(100, [1, 0, 0, 0, 0, 0, 0, 0]), (101, [2, 0, 0, 0, 0, 0, 0, 0])]).2 = none := by
  decide

/-- C9 (amended): on flush, each distinct fingerprint of the batch goes
through `recordMars` exactly once (the unique-item keys are duplicate-free
and are exactly the batch's fingerprints); the representative is chosen only
among outcomes that are neither Skipped nor first-seen (`PrevCount` must be
positive) and maximises the previous count — equivalently the resulting
count — with ties resolved by the unspecified map iteration order, not by
buffer position; if every outcome is Skipped or first-seen, or the batch is
empty, no notification fires. -/
theorem c9_album_flush (s : Store) (g : Int) (msgs : List (Int × List Nat))
    (perm : List AlbumItem) (hperm : perm.Perm (processAlbum s g msgs).2) :
    (albumKeys (processAlbum s g msgs).2).Nodup ∧
    (∀ dd, dd ∈ albumKeys (processAlbum s g msgs).2 ↔ dd ∈ msgs.map fun msg => msg.2) ∧
    (selectBest perm = none →
      ∀ it ∈ (processAlbum s g msgs).2, it.res.Skipped = true ∨ it.res.PrevCount = 0) ∧
    (∀ b, selectBest perm = some b →
      b ∈ (processAlbum s g msgs).2 ∧ b.res.Skipped = false ∧ b.res.PrevCount ≠ 0 ∧
      ∀ it ∈ (processAlbum s g msgs).2, it.res.Skipped = false →
        it.res.PrevCount ≠ 0 → it.res.PrevCount ≤ b.res.PrevCount) := by
  obtain ⟨hnd, hmem⟩ := processAlbum_aux g msgs s [] (by simp [albumKeys])
  refine ⟨hnd, ?_, ?_, ?_⟩
  · intro dd
    rw [show (processAlbum s g msgs).2 = (msgs.foldl (albumStep g) (s, [])).2 from rfl,
      hmem dd]
    simp [albumKeys]
  · intro hnone it hit
    have h := (selectBest_aux perm none).1 hnone
    have hit2 : it ∈ perm := hperm.mem_iff.mpr hit
    have := h.2 it hit2
    unfold eligible at this
    by_cases hs : it.res.Skipped = true
    · exact Or.inl hs
    · refine Or.inr ?_
      by_contra hc
      exact this ⟨by simpa using hs, hc⟩
  · intro b hb
    obtain ⟨h1, h2, _⟩ := (selectBest_aux perm none).2 b hb
    have hbel : b ∈ perm ∧ eligible b := by
      rcases h1 with h1 | h1
      · cases h1
      · exact h1
    refine ⟨hperm.mem_iff.mp hbel.1, hbel.2.1, hbel.2.2, ?_⟩
    intro it hit hs hp
    exact h2 it (hperm.mem_iff.mpr hit) ⟨hs, hp⟩

/-- C9 witness: an album with a repeated fingerprint on a store where both
images were seen before; the duplicate is processed once and the higher-count
outcome wins. -/
theorem c9_album_flush_w :
    (albumKeys (processAlbum ⟨[⟨1, [1, 0, 0, 0, 0, 0, 0, 0], 1, 10, 0⟩,
        ⟨1, [2, 0, 0, 0, 0, 0, 0, 0], 2, 11, 0⟩], [⟨1, 2⟩]⟩ 1
        [(100, [1, 0, 0, 0, 0, 0, 0, 0]), (101, [2, 0, 0, 0, 0, 0, 0, 0]),
          (102, [1, 0, 0, 0, 0, 0, 0, 0])]).2).Nodup ∧
    ⟨[2, 0, 0, 0, 0, 0, 0, 0], 101,
        ⟨2, 11, ⟨1, [2, 0, 0, 0, 0, 0, 0, 0], 3, 101, 0⟩, false⟩⟩ ∈
      (processAlbum ⟨[⟨1, [1, 0, 0, 0, 0, 0, 0, 0], 1, 10, 0⟩,
        ⟨1, [2, 0, 0, 0, 0, 0, 0, 0], 2, 11, 0⟩], [⟨1, 2⟩]⟩ 1
        [(100, [1, 0, 0, 0, 0, 0, 0, 0]), (101, [2, 0, 0, 0, 0, 0, 0, 0]),
          (102, [1, 0, 0, 0, 0, 0, 0, 0])]).2 := by
  have h := c9_album_flush ⟨[⟨1, [1, 0, 0, 0, 0, 0, 0, 0], 1, 10, 0⟩,
      ⟨1, [2, 0, 0, 0, 0, 0, 0, 0], 2, 11, 0⟩], [⟨1, 2⟩]⟩ 1
    [(100, [1, 0, 0, 0, 0, 0, 0, 0]), (101, [2, 0, 0, 0, 0, 0, 0, 0]),
      (102, [1, 0, 0, 0, 0, 0, 0, 0])]
    (processAlbum ⟨[⟨1, [1, 0, 0, 0, 0, 0, 0, 0], 1, 10, 0⟩,
      ⟨1, [2, 0, 0, 0, 0, 0, 0, 0], 2, 11, 0⟩], [⟨1, 2⟩]⟩ 1
      [(100, [1, 0, 0, 0, 0, 0, 0, 0]), (101, [2, 0, 0, 0, 0, 0, 0, 0]),
        (102, [1, 0, 0, 0, 0, 0, 0, 0])]).2 (List.Perm.refl _)
  refine ⟨h.1, ?_⟩
  exact (h.2.2.2 ⟨[2, 0, 0, 0, 0, 0, 0, 0], 101,
    ⟨2, 11, ⟨1, [2, 0, 0, 0, 0, 0, 0, 0], 3, 101, 0⟩, false⟩⟩ (by decide)).1

end Marsbot
